import Mathlib

/-
  Verification of the static site generator in src/index.js.

  The program is a batch pipeline: list the Markdown files of a posts
  directory, split front matter from each body, generate one HTML file per
  public post via a template engine, and write an index page listing the
  public posts sorted by date.

  Shallow embedding conventions:
  * A directory is a list of `DirEnt` (name, regular-file flag, content);
    a real directory never holds two entries with the same name.
  * External libraries keep their effectful interface abstract:
    - `front-matter` is a parameter `fm : FrontMatter`, returning the parsed
      attribute object and the remaining body, or an error for a malformed
      metadata block (the library throws on bad YAML);
    - `remark` (markdownToHTML) is a parameter `md2html : String → String`;
    - `nunjucks.render` on the two templates is a pair of parameters
      `renderPost : JObject → String` and `renderIndex : List JObject → String`;
    - `new Date(x)` valuation used by the sort comparator is a parameter
      `dv : Option JValue → Int` (valid date strings map to timestamps).
  * JavaScript objects are key/value lists with unique keys built by
    assignment order, so spread semantics (later keys override earlier
    ones) is explicit.
  * `fs` effects are explicit state passing on directory lists; `fs.mkdir
    recursive` only ensures the destination directory exists, which the
    embedding represents by the directory list being given.
  * JavaScript `Array.prototype.sort` with a consistent comparator is
    stable and produces the sorted permutation; it is modelled by a stable
    insertion sort with the source's comparator.
-/

set_option maxHeartbeats 1000000

namespace SSG

/-- JavaScript values that can appear in parsed front-matter attributes. -/
inductive JValue where
  | str (s : String)
  | bool (b : Bool)
  | num (n : Int)
  | null
deriving DecidableEq

/-- A JavaScript object: key/value pairs in insertion order, keys unique. -/
abbrev JObject := List (String × JValue)

/-- Model of JavaScript object key assignment: an existing key keeps its
position and gets the new value, a fresh key is appended.  An object
literal with spreads, such as the source's returned post object, is a fold of
these assignments starting from the empty object. -/
def objInsert (o : JObject) (k : String) (v : JValue) : JObject :=
  if o.any (fun p => p.1 == k) then
    o.map (fun p => if p.1 == k then (k, v) else p)
  else
    o ++ [(k, v)]

/-- Model of JavaScript property access `o[k]`: `none` plays `undefined`. -/
def objLookup (o : JObject) (k : String) : Option JValue :=
  (o.find? (fun p => p.1 == k)).map (fun p => p.2)

/-- Model of JavaScript `Boolean(x)` on a possibly-undefined value, as used
by the source's `Boolean(post.public)` filter. -/
def truthy : Option JValue → Bool
  | none => false
  | some (.bool b) => b
  | some (.str s) => !s.data.isEmpty
  | some (.num n) => n != 0
  | some .null => false

/-- One directory entry as reported by `fs.readdir` with `withFileTypes`:
a name, whether the entry is a regular file, and (for files) its content. -/
structure DirEnt where
  name : String
  isFile : Bool
  content : String
deriving DecidableEq

/-- Model of JavaScript `String.prototype.endsWith`. -/
def strEndsWith (s suffix : String) : Bool :=
  List.isSuffixOf suffix.data s.data

/-- Model of JavaScript `String.prototype.toLowerCase` (ASCII-faithful). -/
def strToLower (s : String) : String :=
  ⟨s.data.map Char.toLower⟩

/-- Model of Node's `path.basename(nm, ext)` for slash-free names as
returned by `fs.readdir`: the extension is stripped only when the name ends
with it and is strictly longer than it (Node leaves a name that is exactly
the extension unchanged, e.g. `basename(".md", ".md") = ".md"`). -/
def basename (nm ext : String) : String :=
  if !ext.data.isEmpty && strEndsWith nm ext && decide (ext.data.length < nm.data.length) then
    ⟨nm.data.take (nm.data.length - ext.data.length)⟩
  else nm

/-- Model of Node's `path.format {name, ext}`: base name is `name + ext`. -/
def pathFormat (name ext : String) : String := name ++ ext

/-- getFiles (src/index.js lines 19-34): list the names of the regular
files in a directory whose lower-cased name ends with the given extension;
an empty extension matches everything. -/
def getFiles (dirents : List DirEnt) (fileExt : String) : List String :=
  ((dirents.filter (fun d => d.isFile)).filter
      (fun d => if fileExt.data.isEmpty then true else strEndsWith (strToLower d.name) fileExt)).map
    (fun d => d.name)

/-- removeFiles (src/index.js lines 37-47): unlink every file of the
directory whose name getFiles reports for the extension. -/
def removeFiles (dirPath : List DirEnt) (fileExt : String) : List DirEnt :=
  let fileNames := getFiles dirPath fileExt
  dirPath.filter (fun e => !fileNames.contains e.name)

/-- Model of `fs.writeFile`: overwrite the entry carrying the name, or
append a fresh file entry. -/
def writeFile (dir : List DirEnt) (name content : String) : List DirEnt :=
  if dir.any (fun e => e.name == name) then
    dir.map (fun e => if e.name == name then ⟨name, true, content⟩ else e)
  else dir ++ [⟨name, true, content⟩]

/-- Model of `fs.readFile` for a name previously listed by getFiles; the
default is never reached on names returned by getFiles. -/
def readFile (dir : List DirEnt) (name : String) : String :=
  match dir.find? (fun e => e.isFile && e.name == name) with
  | some e => e.content
  | none => ""

/-- Interface of the external `front-matter` library: the parsed attribute
object and the body, or an error for a malformed metadata block. -/
abbrev FrontMatter := String → Except String (JObject × String)

/-- parsePost (src/index.js lines 53-60): strip the `.md` extension from
the file name to get a slug, split the content into attributes and body,
and return the object literal `{...attributes, body, slug}`. -/
def parsePost (fm : FrontMatter) (fileName fileData : String) : Except String JObject :=
  let slug := basename fileName ".md"
  match fm fileData with
  | .error e => .error e
  | .ok (attributes, body) =>
    .ok (objInsert (objInsert
      (attributes.foldl (fun o kv => objInsert o kv.1 kv.2) ([] : JObject))
      "body" (.str body)) "slug" (.str slug))

/-- Parse each listed file in order; the first malformed file rejects the
whole batch, as the synchronous `.map` over the read contents does. -/
def parseAll (fm : FrontMatter) (dir : List DirEnt) : List String → Except String (List JObject)
  | [] => .ok []
  | n :: ns =>
    match parsePost fm n (readFile dir n) with
    | .error e => .error e
    | .ok p =>
      match parseAll fm dir ns with
      | .error e => .error e
      | .ok ps => .ok (p :: ps)

/-- getPosts (src/index.js lines 66-79): list the `.md` files, read them
and parse each one into a post object. -/
def getPosts (fm : FrontMatter) (dirPath : List DirEnt) : Except String (List JObject) :=
  parseAll fm dirPath (getFiles dirPath ".md")

/-- The slug property of a post object; posts produced by parsePost always
carry a string there. -/
def slugOf (post : JObject) : String :=
  match objLookup post "slug" with
  | some (.str s) => s
  | _ => ""

/-- The body property of a post object; posts produced by parsePost always
carry a string there. -/
def bodyOf (post : JObject) : String :=
  match objLookup post "body" with
  | some (.str s) => s
  | _ => ""

/-- The output file name built by createPostFile (src/index.js line 113):
`path.format {name: post.slug, ext: ".html"}`. -/
def createPostFileName (post : JObject) : String :=
  pathFormat (slugOf post) ".html"

/-- createPostFile (src/index.js lines 104-121): render the post template
over the post with its body converted to HTML, write the result under
`slug + ".html"`, and hand back the (unchanged) post object. -/
def createPostFile (renderPost : JObject → String) (md2html : String → String)
    (dir : List DirEnt) (post : JObject) : List DirEnt × JObject :=
  let fileData := renderPost (objInsert post "body" (.str (md2html (bodyOf post))))
  let fileName := createPostFileName post
  (writeFile dir fileName fileData, post)

/-- createIndexFile (src/index.js lines 126-134): render the index template
over the post list and write `index.html`. -/
def createIndexFile (renderIndex : List JObject → String) (dir : List DirEnt)
    (posts : List JObject) : List DirEnt :=
  writeFile dir "index.html" (renderIndex posts)

/-- The sort comparator of src/index.js line 156,
`(a, b) => new Date(b.date) - new Date(a.date)`: `a` may precede `b`
exactly when the comparator is nonpositive, i.e. newest first. -/
def postLe (dv : Option JValue → Int) (a b : JObject) : Bool :=
  decide (dv (objLookup b "date") ≤ dv (objLookup a "date"))

/-- Insert one element into an already sorted list, keeping an element
before later equals: the stable insertion step. -/
def sortInsert (le : JObject → JObject → Bool) (x : JObject) :
    List JObject → List JObject
  | [] => [x]
  | y :: l => if le x y then x :: y :: l else y :: sortInsert le x l

/-- Model of JavaScript `Array.prototype.sort` with a consistent
comparator: the stable sorted permutation, here as insertion sort. -/
def sortPosts (le : JObject → JObject → Bool) : List JObject → List JObject
  | [] => []
  | x :: l => sortInsert le x (sortPosts le l)

/-- One step of the per-post generation loop of build: thread the output
directory through createPostFile and collect the settled post, as
`Promise.all` collects the values of `posts.map(createPostFile)`. -/
def buildStep (renderPost : JObject → String) (md2html : String → String)
    (acc : List DirEnt × List JObject) (p : JObject) : List DirEnt × List JObject :=
  let cr := createPostFile renderPost md2html acc.1 p
  (cr.1, acc.2 ++ [cr.2])

/-- The part of build (src/index.js lines 137-160) after the destination
directory has been reset: parse the posts, generate a page for every post
whose public flag is truthy, sort the created posts by date (newest first,
in place) and write the index over them.  Returns the value the build
promise settles with and the final destination directory. -/
def buildCore (fm : FrontMatter) (md2html : String → String)
    (renderPost : JObject → String) (renderIndex : List JObject → String)
    (dv : Option JValue → Int) (postsDir dir1 : List DirEnt) :
    Except String (List JObject) × List DirEnt :=
  match getPosts fm postsDir with
  | .error e => (.error e, dir1)
  | .ok posts =>
    let pubPosts := posts.filter (fun p => truthy (objLookup p "public"))
    let r := pubPosts.foldl (buildStep renderPost md2html) (dir1, ([] : List JObject))
    let createdPosts := sortPosts (postLe dv) r.2
    let dirFinal := createIndexFile renderIndex r.1 createdPosts
    (.ok createdPosts, dirFinal)

/-- build (src/index.js lines 137-160): ensure the destination directory
exists, delete the previously generated HTML files in it, then run the
generation pipeline.  `Array.prototype.sort` mutates in place, so the
promise settles with the date-sorted list of created posts. -/
def build (fm : FrontMatter) (md2html : String → String)
    (renderPost : JObject → String) (renderIndex : List JObject → String)
    (dv : Option JValue → Int) (postsDir publicDir : List DirEnt) :
    Except String (List JObject) × List DirEnt :=
  buildCore fm md2html renderPost renderIndex dv postsDir (removeFiles publicDir ".html")

/-- The two standard streams of the process. -/
inductive Channel where
  | stdout
  | stderr
deriving DecidableEq

/-- The message printed by the `.then` handler of src/index.js line 164. -/
def successMessage (n : Nat) : String :=
  "Build successful. Generated " ++ toString n ++ " post(s)."

/-- The no-argument entry point (src/index.js lines 162-166):
`build().then(...).catch(err => console.error(err))`.  The catch handler
prints the error to standard error and handles the rejection, so the
process exits normally: the exit code is 0 on both outcomes. -/
def entryPoint (fm : FrontMatter) (md2html : String → String)
    (renderPost : JObject → String) (renderIndex : List JObject → String)
    (dv : Option JValue → Int) (postsDir publicDir : List DirEnt) :
    Channel × String × Nat :=
  match (build fm md2html renderPost renderIndex dv postsDir publicDir).1 with
  | .ok created => (Channel.stdout, successMessage created.length, 0)
  | .error e => (Channel.stderr, e, 0)

/-! Helper lemmas about the string and list models. -/

lemma contains_iff_mem (l : List String) (a : String) : l.contains a = true ↔ a ∈ l := by
  simp [List.contains, List.elem_iff]

lemma contains_eq_decide (l : List String) (a : String) : l.contains a = decide (a ∈ l) := by
  by_cases h : a ∈ l <;> simp [List.contains, List.elem_iff, h]

lemma string_append_data (s t : String) : (s ++ t).data = s.data ++ t.data := rfl

lemma strEndsWith_append (s t : String) : strEndsWith (s ++ t) t = true := by
  have hsuff : t.data <:+ (s ++ t).data := by
    rw [string_append_data]; exact List.suffix_append s.data t.data
  simp only [strEndsWith, List.isSuffixOf, List.isPrefixOf_iff_prefix]
  simp [List.reverse_prefix, hsuff]

lemma strToLower_append (s t : String) : strToLower (s ++ t) = strToLower s ++ strToLower t := by
  obtain ⟨a⟩ := s
  obtain ⟨b⟩ := t
  simp only [strToLower, string_append_data, List.map_append]
  rfl

lemma strToLower_html : strToLower ".html" = ".html" := by decide

lemma htmlish_append (s : String) :
    strEndsWith (strToLower (s ++ ".html")) ".html" = true := by
  rw [strToLower_append, strToLower_html]
  exact strEndsWith_append (strToLower s) ".html"

lemma createPostFileName_eq (p : JObject) : createPostFileName p = slugOf p ++ ".html" := rfl

lemma htmlish_createPostFileName (p : JObject) :
    strEndsWith (strToLower (createPostFileName p)) ".html" = true := by
  rw [createPostFileName_eq]; exact htmlish_append (slugOf p)

lemma htmlish_index : strEndsWith (strToLower "index.html") ".html" = true := by decide

lemma ne_of_htmlish {a b : String}
    (ha : strEndsWith (strToLower a) ".html" = true)
    (hb : strEndsWith (strToLower b) ".html" = false) : a ≠ b := by
  intro h
  rw [h, hb] at ha
  exact Bool.noConfusion ha

/-! Helper lemmas about getFiles and removeFiles. -/

lemma mem_getFiles {dirents : List DirEnt} {fileExt : String}
    (hext : fileExt.data.isEmpty = false) {x : String} :
    x ∈ getFiles dirents fileExt ↔
      ∃ e ∈ dirents, e.isFile = true ∧ strEndsWith (strToLower e.name) fileExt = true ∧ e.name = x := by
  simp only [getFiles, List.mem_map, List.mem_filter, hext]
  constructor
  · rintro ⟨e, ⟨⟨⟨he, hf⟩, hm⟩, hn⟩⟩
    exact ⟨e, he, hf, by simpa using hm, hn⟩
  · rintro ⟨e, he, hf, hm, hn⟩
    exact ⟨e, ⟨⟨⟨he, hf⟩, by simpa using hm⟩, hn⟩⟩

lemma getFiles_ends {dirents : List DirEnt} {fileExt : String}
    (hext : fileExt.data.isEmpty = false) {x : String}
    (hx : x ∈ getFiles dirents fileExt) : strEndsWith (strToLower x) fileExt = true := by
  obtain ⟨e, _, _, hm, hn⟩ := (mem_getFiles hext).mp hx
  rw [← hn]; exact hm

lemma removeFiles_subset {d : List DirEnt} {ext : String} {e : DirEnt}
    (he : e ∈ removeFiles d ext) : e ∈ d :=
  (List.mem_filter.mp he).1

lemma mem_removeFiles_of_not_ext {d : List DirEnt} {ext : String}
    (hext : ext.data.isEmpty = false) {e : DirEnt} (he : e ∈ d)
    (hne : strEndsWith (strToLower e.name) ext = false) : e ∈ removeFiles d ext := by
  refine List.mem_filter.mpr ⟨he, ?_⟩
  have hnm : e.name ∉ getFiles d ext := by
    intro hmem
    have hends := getFiles_ends hext hmem
    rw [hends] at hne
    exact Bool.noConfusion hne
  simp [contains_eq_decide, hnm]

lemma removeFiles_no_match {d : List DirEnt} {ext : String}
    (hext : ext.data.isEmpty = false) {e : DirEnt}
    (he : e ∈ removeFiles d ext) (hf : e.isFile = true) :
    strEndsWith (strToLower e.name) ext = false := by
  obtain ⟨hed, hc⟩ := List.mem_filter.mp he
  cases hv : strEndsWith (strToLower e.name) ext
  · rfl
  · exfalso
    have hmem : e.name ∈ getFiles d ext := (mem_getFiles hext).mpr ⟨e, hed, hf, hv, rfl⟩
    rw [contains_eq_decide] at hc
    simp [hmem] at hc

lemma getFiles_removeFiles {d : List DirEnt} {ext : String}
    (hext : ext.data.isEmpty = false) :
    getFiles (removeFiles d ext) ext = [] := by
  rw [List.eq_nil_iff_forall_not_mem]
  intro x hx
  obtain ⟨e, he, hf, hm, hn⟩ := (mem_getFiles hext).mp hx
  have hno := removeFiles_no_match hext he hf
  rw [hm] at hno
  exact Bool.noConfusion hno

lemma removeFiles_idem {d : List DirEnt} {ext : String}
    (hext : ext.data.isEmpty = false) :
    removeFiles (removeFiles d ext) ext = removeFiles d ext := by
  show (removeFiles d ext).filter _ = removeFiles d ext
  rw [getFiles_removeFiles hext]
  exact List.filter_eq_self.mpr (fun a _ => rfl)

/-! Helper lemmas about writeFile. -/

lemma writeFile_mem_of_ne {d : List DirEnt} {n c : String} {e : DirEnt}
    (he : e ∈ d) (hne : e.name ≠ n) : e ∈ writeFile d n c := by
  unfold writeFile
  by_cases h : d.any (fun x => x.name == n) = true
  · rw [if_pos h]
    exact List.mem_map.mpr ⟨e, he, by simp [hne]⟩
  · rw [if_neg h]
    exact List.mem_append_left _ he

lemma writeFile_mem_inv {d : List DirEnt} {n c : String} {e : DirEnt}
    (he : e ∈ writeFile d n c) : e = ⟨n, true, c⟩ ∨ (e ∈ d ∧ e.name ≠ n) := by
  unfold writeFile at he
  by_cases h : d.any (fun x => x.name == n) = true
  · rw [if_pos h] at he
    obtain ⟨a, ha, hfa⟩ := List.mem_map.mp he
    by_cases han : a.name = n
    · left; rw [← hfa]; simp [han]
    · right
      have hfe : e = a := by rw [← hfa]; simp [han]
      exact ⟨hfe ▸ ha, hfe ▸ han⟩
  · rw [if_neg h] at he
    rcases List.mem_append.mp he with h1 | h2
    · right
      refine ⟨h1, fun hn2 => h ?_⟩
      exact List.any_eq_true.mpr ⟨e, h1, by simp [hn2]⟩
    · left; simpa using h2

lemma writeFile_exists_file (d : List DirEnt) (n c : String) :
    ∃ e ∈ writeFile d n c, e.isFile = true ∧ e.name = n := by
  unfold writeFile
  by_cases h : d.any (fun x => x.name == n) = true
  · rw [if_pos h]
    obtain ⟨a, ha, hpa⟩ := List.any_eq_true.mp h
    refine ⟨⟨n, true, c⟩, List.mem_map.mpr ⟨a, ha, ?_⟩, rfl, rfl⟩
    rw [if_pos hpa]
  · rw [if_neg h]
    exact ⟨⟨n, true, c⟩, List.mem_append_right _ (by simp), rfl, rfl⟩

lemma writeFile_file_preserved {d : List DirEnt} {n c m : String}
    (h : ∃ e ∈ d, e.isFile = true ∧ e.name = m) :
    ∃ e ∈ writeFile d n c, e.isFile = true ∧ e.name = m := by
  by_cases hmn : m = n
  · subst hmn; exact writeFile_exists_file d m c
  · obtain ⟨e, he, hf, hn2⟩ := h
    exact ⟨e, writeFile_mem_of_ne he (by rw [hn2]; exact hmn), hf, hn2⟩

lemma writeFile_no_file {d : List DirEnt} {n c m : String}
    (h : ¬ ∃ e ∈ d, e.isFile = true ∧ e.name = m) (hmn : m ≠ n) :
    ¬ ∃ e ∈ writeFile d n c, e.isFile = true ∧ e.name = m := by
  rintro ⟨e, he, hf, hn2⟩
  rcases writeFile_mem_inv he with h1 | ⟨h2, _⟩
  · apply hmn
    rw [← hn2, h1]
  · exact h ⟨e, h2, hf, hn2⟩

lemma writeFile_nonFile_mem {d : List DirEnt} {n c : String} {e : DirEnt}
    (he : e ∈ writeFile d n c) (hf : e.isFile = false) : e ∈ d := by
  rcases writeFile_mem_inv he with h1 | ⟨h2, _⟩
  · rw [h1] at hf; exact Bool.noConfusion hf
  · exact h2

/-! The reset step absorbs any write of an `.html`-named file: the heart of
the idempotence argument for build. -/

lemma filter_map_eq_filter {α : Type} (f : α → α) (P Q : α → Bool) :
    ∀ (d : List α),
      (∀ e ∈ d, (Q e = false ∧ P (f e) = false) ∨ (Q e = true ∧ P (f e) = true ∧ f e = e)) →
      (d.map f).filter P = d.filter Q := by
  intro d
  induction d with
  | nil => intro _; rfl
  | cons e d ih =>
    intro h
    have hd := ih (fun x hx => h x (List.mem_cons_of_mem e hx))
    rcases h e (List.mem_cons_self e d) with ⟨hq, hp⟩ | ⟨hq, hp, hfe⟩
    · rw [List.map_cons, List.filter_cons, List.filter_cons, hp, hq]
      simpa using hd
    · rw [List.map_cons, List.filter_cons, List.filter_cons, hp, hq, hfe, hd]

lemma mem_getFiles_writeFile {d : List DirEnt} {n c m : String}
    (hn : strEndsWith (strToLower n) ".html" = true) :
    m ∈ getFiles (writeFile d n c) ".html" ↔ (m ∈ getFiles d ".html" ∨ m = n) := by
  have hext : (".html" : String).data.isEmpty = false := rfl
  constructor
  · intro hm
    obtain ⟨e, he, hf, hml, hname⟩ := (mem_getFiles hext).mp hm
    rcases writeFile_mem_inv he with h1 | ⟨h2, _⟩
    · right; rw [← hname, h1]
    · left; exact (mem_getFiles hext).mpr ⟨e, h2, hf, hml, hname⟩
  · rintro (hm | hmn)
    · obtain ⟨e, he, hf, hml, hname⟩ := (mem_getFiles hext).mp hm
      by_cases hen : e.name = n
      · obtain ⟨e2, he2, hf2, hn2⟩ := writeFile_exists_file d n c
        refine (mem_getFiles hext).mpr ⟨e2, he2, hf2, ?_, ?_⟩
        · rw [hn2]; exact hn
        · rw [hn2, ← hname, hen]
      · exact (mem_getFiles hext).mpr ⟨e, writeFile_mem_of_ne he hen, hf, hml, hname⟩
    · obtain ⟨e2, he2, hf2, hn2⟩ := writeFile_exists_file d n c
      refine (mem_getFiles hext).mpr ⟨e2, he2, hf2, by rw [hn2]; exact hn, ?_⟩
      rw [hn2, hmn]

lemma removeFiles_writeFile {d : List DirEnt} {n c : String}
    (hn : strEndsWith (strToLower n) ".html" = true)
    (hf : ∀ e ∈ d, e.name = n → e.isFile = true) :
    removeFiles (writeFile d n c) ".html" = removeFiles d ".html" := by
  have hext : (".html" : String).data.isEmpty = false := rfl
  have hPQ : ∀ e ∈ d, e.name ≠ n →
      (getFiles (writeFile d n c) ".html").contains e.name =
        (getFiles d ".html").contains e.name := by
    intro e _ hen
    rw [contains_eq_decide, contains_eq_decide]
    apply decide_eq_decide.mpr
    rw [mem_getFiles_writeFile hn]
    constructor
    · rintro (x | x)
      · exact x
      · exact absurd x hen
    · exact Or.inl
  have hn_in : (getFiles (writeFile d n c) ".html").contains n = true := by
    rw [contains_iff_mem]
    exact (mem_getFiles_writeFile hn).mpr (Or.inr rfl)
  have hn_in_d : ∀ e ∈ d, e.name = n → (getFiles d ".html").contains e.name = true := by
    intro e he hen
    rw [contains_iff_mem]
    exact (mem_getFiles hext).mpr ⟨e, he, hf e he hen, by rw [hen]; exact hn, rfl⟩
  show (writeFile d n c).filter (fun e => !(getFiles (writeFile d n c) ".html").contains e.name) =
    d.filter (fun e => !(getFiles d ".html").contains e.name)
  generalize hgW : getFiles (writeFile d n c) ".html" = gW at hPQ hn_in ⊢
  generalize hgd : getFiles d ".html" = gd at hPQ hn_in_d ⊢
  by_cases hany : d.any (fun x => x.name == n) = true
  · have hw : writeFile d n c = d.map (fun x => if x.name == n then ⟨n, true, c⟩ else x) := by
      unfold writeFile; rw [if_pos hany]
    rw [hw]
    apply filter_map_eq_filter
    intro e he
    by_cases hen : e.name = n
    · left
      constructor
      · rw [hn_in_d e he hen]; rfl
      · have hfe : (if e.name == n then (⟨n, true, c⟩ : DirEnt) else e) = ⟨n, true, c⟩ := by
          simp [hen]
        rw [hfe]
        show (!gW.contains n) = false
        rw [hn_in]; rfl
    · have hfe : (if e.name == n then (⟨n, true, c⟩ : DirEnt) else e) = e := by simp [hen]
      rw [hfe]
      rcases hQ : (!gd.contains e.name) with _ | _
      · left
        refine ⟨rfl, ?_⟩
        rw [hPQ e he hen]
        exact hQ
      · right
        refine ⟨rfl, ?_, rfl⟩
        rw [hPQ e he hen]
        exact hQ
  · have hnoton : ∀ e ∈ d, e.name ≠ n := by
      intro e he hen
      exact hany (List.any_eq_true.mpr ⟨e, he, by simp [hen]⟩)
    have hw : writeFile d n c = d ++ [⟨n, true, c⟩] := by
      unfold writeFile; rw [if_neg hany]
    rw [hw, List.filter_append]
    have h1 : List.filter (fun e => !gW.contains e.name) [(⟨n, true, c⟩ : DirEnt)] = [] := by
      rw [List.filter_cons]
      show (if (!gW.contains n) = true then _ else _) = _
      rw [hn_in]
      simp
    rw [h1, List.append_nil]
    apply List.filter_congr
    intro e he
    rw [hPQ e he (hnoton e he)]

/-! Helper lemmas about the post-generation fold of build. -/

lemma foldl_buildStep_snd (rP : JObject → String) (m2h : String → String) :
    ∀ (ps : List JObject) (d : List DirEnt) (acc : List JObject),
      (ps.foldl (buildStep rP m2h) (d, acc)).2 = acc ++ ps := by
  intro ps
  induction ps with
  | nil => intro d acc; simp
  | cons p ps ih =>
    intro d acc
    rw [List.foldl_cons, ih]
    show (acc ++ [p]) ++ ps = acc ++ p :: ps
    simp

lemma foldl_buildStep_fst (rP : JObject → String) (m2h : String → String)
    (P : List DirEnt → Prop) :
    ∀ (ps : List JObject) (d : List DirEnt) (acc : List JObject),
      (∀ d2 p, p ∈ ps → P d2 → P ((createPostFile rP m2h d2 p).1)) →
      P d → P ((ps.foldl (buildStep rP m2h) (d, acc)).1) := by
  intro ps
  induction ps with
  | nil => intro d acc _ hd; exact hd
  | cons p ps ih =>
    intro d acc hstep hd
    rw [List.foldl_cons]
    exact ih ((createPostFile rP m2h d p).1) (acc ++ [p])
      (fun d2 q hq => hstep d2 q (List.mem_cons_of_mem p hq))
      (hstep d p (List.mem_cons_self p ps) hd)

lemma foldl_buildStep_creates (rP : JObject → String) (m2h : String → String) :
    ∀ (ps : List JObject) (d : List DirEnt) (acc : List JObject) (p : JObject), p ∈ ps →
      ∃ e ∈ (ps.foldl (buildStep rP m2h) (d, acc)).1,
        e.isFile = true ∧ e.name = createPostFileName p := by
  intro ps
  induction ps with
  | nil => intro d acc p hp; cases hp
  | cons q ps ih =>
    intro d acc p hp
    rw [List.foldl_cons]
    rcases List.mem_cons.mp hp with hpq | hmem
    · subst hpq
      exact foldl_buildStep_fst rP m2h
        (fun dir => ∃ e ∈ dir, e.isFile = true ∧ e.name = createPostFileName p) ps
        ((createPostFile rP m2h d p).1) (acc ++ [p])
        (fun d2 r _ hd2 => writeFile_file_preserved hd2)
        (writeFile_exists_file d (createPostFileName p) _)
    · exact ih ((createPostFile rP m2h d q).1) (acc ++ [q]) p hmem

/-! Helper lemmas about the sort model. -/

lemma sortInsert_perm (le : JObject → JObject → Bool) (x : JObject) :
    ∀ l, (sortInsert le x l).Perm (x :: l) := by
  intro l
  induction l with
  | nil => exact List.Perm.refl _
  | cons y l ih =>
    rw [sortInsert]
    by_cases h : le x y = true
    · rw [if_pos h]
    · rw [if_neg h]
      exact List.Perm.trans (List.Perm.cons y ih) (List.Perm.swap x y l)

lemma sortPosts_perm (le : JObject → JObject → Bool) : ∀ l, (sortPosts le l).Perm l := by
  intro l
  induction l with
  | nil => exact List.Perm.refl _
  | cons x l ih =>
    rw [sortPosts]
    exact List.Perm.trans (sortInsert_perm le x (sortPosts le l)) (List.Perm.cons x ih)

lemma sortInsert_head (le : JObject → JObject → Bool) (x : JObject) (l : List JObject) :
    (sortInsert le x l).head? = some x ∨ (sortInsert le x l).head? = l.head? := by
  cases l with
  | nil => left; rfl
  | cons y l =>
    rw [sortInsert]
    by_cases h : le x y = true
    · rw [if_pos h]; left; rfl
    · rw [if_neg h]; right; rfl

lemma sortInsert_chain (le : JObject → JObject → Bool)
    (htot : ∀ a b, le a b = false → le b a = true) (x : JObject) :
    ∀ l, List.Chain' (fun a b => le a b = true) l →
      List.Chain' (fun a b => le a b = true) (sortInsert le x l) := by
  intro l
  induction l with
  | nil => intro _; simp [sortInsert]
  | cons y l ih =>
    intro h
    obtain ⟨hy, hl⟩ := List.chain'_cons'.mp h
    rw [sortInsert]
    by_cases hxy : le x y = true
    · rw [if_pos hxy]
      refine List.chain'_cons'.mpr ⟨?_, h⟩
      intro z hz
      simp only [List.head?] at hz
      rw [Option.mem_def, Option.some_inj] at hz
      rw [hz] at hxy
      exact hxy
    · rw [if_neg hxy]
      refine List.chain'_cons'.mpr ⟨?_, ih hl⟩
      intro z hz
      have hxyf : le x y = false := by
        cases hv : le x y
        · rfl
        · exact absurd hv hxy
      rcases sortInsert_head le x l with hh | hh
      · rw [hh, Option.mem_def, Option.some_inj] at hz
        rw [← hz]
        exact htot x y hxyf
      · rw [hh] at hz
        exact hy z hz

lemma sortPosts_chain (le : JObject → JObject → Bool)
    (htot : ∀ a b, le a b = false → le b a = true) :
    ∀ l, List.Chain' (fun a b => le a b = true) (sortPosts le l) := by
  intro l
  induction l with
  | nil => simp [sortPosts]
  | cons x l ih =>
    rw [sortPosts]
    exact sortInsert_chain le htot x _ ih

/-! Helper lemmas about the object model: key assignment wins over the
spread attributes on the same key, later assignments win over earlier. -/

lemma find?_map_set (k : String) (v : JValue) :
    ∀ (o : JObject),
      List.find? (fun p => p.1 == k) (o.map (fun p => if p.1 == k then (k, v) else p)) =
        if o.any (fun p => p.1 == k) then some (k, v) else none := by
  intro o
  induction o with
  | nil => rfl
  | cons p o ih =>
    rw [List.map_cons]
    by_cases hpk : (p.1 == k) = true
    · rw [if_pos hpk]
      have h1 : List.any (p :: o) (fun p => p.1 == k) = true := by
        simp [List.any_cons, hpk]
      rw [if_pos h1]
      exact List.find?_cons_of_pos _ (by simp)
    · have hpk2 : (p.1 == k) = false := by
        cases hv : (p.1 == k)
        · rfl
        · exact absurd hv hpk
      rw [if_neg hpk]
      rw [List.find?_cons_of_neg _ (by rw [hpk2]; exact Bool.false_ne_true), ih]
      have h2 : List.any (p :: o) (fun p => p.1 == k) = List.any o (fun p => p.1 == k) := by
        simp [List.any_cons, hpk2]
      rw [h2]

lemma find?_map_other (k k2 : String) (v : JValue) (h : k2 ≠ k) :
    ∀ (o : JObject),
      List.find? (fun p => p.1 == k2) (o.map (fun p => if p.1 == k then (k, v) else p)) =
        List.find? (fun p => p.1 == k2) o := by
  intro o
  induction o with
  | nil => rfl
  | cons p o ih =>
    rw [List.map_cons]
    by_cases hpk : (p.1 == k) = true
    · rw [if_pos hpk]
      have hp1 : p.1 = k := by simpa using hpk
      have hk2 : ((k, v).1 == k2) = false := by
        simp only []
        exact beq_eq_false_iff_ne.mpr (Ne.symm h)
      have hp2 : (p.1 == k2) = false := by
        rw [hp1]
        exact beq_eq_false_iff_ne.mpr (Ne.symm h)
      rw [List.find?_cons_of_neg _ (by rw [hk2]; exact Bool.false_ne_true),
        List.find?_cons_of_neg _ (by rw [hp2]; exact Bool.false_ne_true), ih]
    · rw [if_neg hpk]
      by_cases hp2 : (p.1 == k2) = true
      · have e1 : List.find? (fun q => q.1 == k2)
            (p :: (o.map (fun q => if q.1 == k then (k, v) else q))) = some p :=
          List.find?_cons_of_pos _ hp2
        have e2 : List.find? (fun q => q.1 == k2) (p :: o) = some p :=
          List.find?_cons_of_pos _ hp2
        rw [e1, e2]
      · have hp2f : (p.1 == k2) = false := by
          cases hv : (p.1 == k2)
          · rfl
          · exact absurd hv hp2
        rw [List.find?_cons_of_neg _ (by rw [hp2f]; exact Bool.false_ne_true),
          List.find?_cons_of_neg _ (by rw [hp2f]; exact Bool.false_ne_true), ih]

lemma objLookup_objInsert_self (o : JObject) (k : String) (v : JValue) :
    objLookup (objInsert o k v) k = some v := by
  unfold objInsert objLookup
  by_cases h : o.any (fun p => p.1 == k) = true
  · rw [if_pos h, find?_map_set, if_pos h]
    rfl
  · rw [if_neg h, List.find?_append]
    have h2 : List.find? (fun p => p.1 == k) o = none :=
      List.find?_eq_none.mpr (fun x hx hc => h (List.any_eq_true.mpr ⟨x, hx, hc⟩))
    rw [h2]
    simp

lemma objLookup_objInsert_other (o : JObject) (k k2 : String) (v : JValue) (h : k2 ≠ k) :
    objLookup (objInsert o k v) k2 = objLookup o k2 := by
  unfold objInsert objLookup
  by_cases ha : o.any (fun p => p.1 == k) = true
  · rw [if_pos ha, find?_map_other k k2 v h]
  · rw [if_neg ha, List.find?_append]
    have h2 : List.find? (fun p => p.1 == k2) [(k, v)] = none := by
      refine List.find?_eq_none.mpr ?_
      intro x hx
      simp at hx
      rw [hx]
      simp [Ne.symm h]
    rw [h2, Option.or_none]

/-! Helper lemmas about parsing. -/

lemma parsePost_ok {fm : FrontMatter} {fileName fileData : String} {attrs : JObject}
    {body : String} (h : fm fileData = .ok (attrs, body)) :
    parsePost fm fileName fileData = .ok (objInsert (objInsert
      (attrs.foldl (fun o kv => objInsert o kv.1 kv.2) []) "body" (.str body))
      "slug" (.str (basename fileName ".md"))) := by
  unfold parsePost
  rw [h]

lemma parsePost_error {fm : FrontMatter} {fileName fileData e : String}
    (h : fm fileData = .error e) : parsePost fm fileName fileData = .error e := by
  unfold parsePost
  rw [h]

lemma parsePost_slug_body {fm : FrontMatter} {fileName fileData : String} {attrs : JObject}
    {body : String} (h : fm fileData = .ok (attrs, body)) :
    ∃ p, parsePost fm fileName fileData = Except.ok p ∧
      objLookup p "slug" = some (.str (basename fileName ".md")) ∧
      objLookup p "body" = some (.str body) := by
  refine ⟨_, parsePost_ok h, objLookup_objInsert_self _ _ _, ?_⟩
  rw [objLookup_objInsert_other _ _ _ _ (by decide)]
  exact objLookup_objInsert_self _ _ _

lemma basename_append_md (X : String) (hX : X.data ≠ []) :
    basename (X ++ ".md") ".md" = X := by
  have h1 : (X ++ ".md").data = X.data ++ (".md" : String).data := string_append_data X ".md"
  have hlen : (X ++ ".md").data.length = X.data.length + 3 := by
    rw [h1, List.length_append]
    rfl
  have hpos : 0 < X.data.length := List.length_pos.mpr hX
  have hlt : (".md" : String).data.length < (X ++ ".md").data.length := by
    rw [hlen]
    show 3 < X.data.length + 3
    omega
  have hd : decide ((".md" : String).data.length < (X ++ ".md").data.length) = true :=
    decide_eq_true_iff.mpr hlt
  have hcond : (!(".md" : String).data.isEmpty && strEndsWith (X ++ ".md") ".md" &&
      decide ((".md" : String).data.length < (X ++ ".md").data.length)) = true := by
    rw [strEndsWith_append, hd]
    decide
  unfold basename
  rw [hcond, if_pos rfl]
  have htake : (X ++ ".md").data.take ((X ++ ".md").data.length - (".md" : String).data.length) =
      X.data := by
    rw [hlen, h1]
    have h3 : X.data.length + 3 - (".md" : String).data.length = X.data.length := by
      show X.data.length + 3 - 3 = X.data.length
      omega
    rw [h3]
    exact List.take_left X.data (".md" : String).data
  rw [htake]

lemma readFile_of_nodup : ∀ (dir : List DirEnt), (dir.map DirEnt.name).Nodup →
    ∀ {e : DirEnt}, e ∈ dir → e.isFile = true → readFile dir e.name = e.content := by
  intro dir
  induction dir with
  | nil => intro _ e he; cases he
  | cons a dir ih =>
    intro hnd e he hf
    rw [List.map_cons, List.nodup_cons] at hnd
    obtain ⟨hna, hnd2⟩ := hnd
    rcases List.mem_cons.mp he with hea | hed
    · subst hea
      unfold readFile
      rw [List.find?_cons_of_pos _ (by simp [hf])]
    · have hane : a.name ≠ e.name := by
        intro hq
        exact hna (hq ▸ List.mem_map.mpr ⟨e, hed, rfl⟩)
      have hr := ih hnd2 hed hf
      unfold readFile at hr ⊢
      rw [List.find?_cons_of_neg _ (by simp [hane])]
      exact hr

lemma parseAll_error {fm : FrontMatter} {dir : List DirEnt} :
    ∀ (ns : List String) (n : String), n ∈ ns →
      (∃ e, parsePost fm n (readFile dir n) = .error e) →
      ∃ e2, parseAll fm dir ns = .error e2 := by
  intro ns
  induction ns with
  | nil => intro n hn; cases hn
  | cons m ns ih =>
    intro n hn hbad
    cases hm : parsePost fm m (readFile dir m) with
    | error e => exact ⟨e, by simp [parseAll, hm]⟩
    | ok p =>
      rcases List.mem_cons.mp hn with hnm | hmem
      · obtain ⟨e, he⟩ := hbad
        rw [← hnm, he] at hm
        cases hm
      · obtain ⟨e2, h2⟩ := ih n hmem hbad
        exact ⟨e2, by simp [parseAll, hm, h2]⟩

lemma getPosts_error_of_bad {fm : FrontMatter} {postsDir : List DirEnt} {bad : DirEnt}
    (hnd : (postsDir.map DirEnt.name).Nodup) (hbad : bad ∈ postsDir)
    (hf : bad.isFile = true) (hmd : strEndsWith (strToLower bad.name) ".md" = true)
    (herr : ∃ e, fm bad.content = .error e) :
    ∃ e2, getPosts fm postsDir = .error e2 := by
  have hext : (".md" : String).data.isEmpty = false := rfl
  have hmem : bad.name ∈ getFiles postsDir ".md" :=
    (mem_getFiles hext).mpr ⟨bad, hbad, hf, hmd, rfl⟩
  have hread : readFile postsDir bad.name = bad.content :=
    readFile_of_nodup postsDir hnd hbad hf
  obtain ⟨e, he⟩ := herr
  refine parseAll_error (getFiles postsDir ".md") bad.name hmem ⟨e, ?_⟩
  rw [hread]
  exact parsePost_error he

/-! Helper lemmas about build itself. -/

lemma buildCore_error {fm : FrontMatter} {md2html : String → String}
    {renderPost : JObject → String} {renderIndex : List JObject → String}
    {dv : Option JValue → Int} {postsDir dir1 : List DirEnt} {e : String}
    (h : getPosts fm postsDir = .error e) :
    buildCore fm md2html renderPost renderIndex dv postsDir dir1 = (.error e, dir1) := by
  unfold buildCore
  rw [h]

lemma buildCore_ok {fm : FrontMatter} {md2html : String → String}
    {renderPost : JObject → String} {renderIndex : List JObject → String}
    {dv : Option JValue → Int} {postsDir dir1 : List DirEnt} {posts : List JObject}
    (h : getPosts fm postsDir = .ok posts) :
    buildCore fm md2html renderPost renderIndex dv postsDir dir1 =
      (.ok (sortPosts (postLe dv)
          ((posts.filter (fun p => truthy (objLookup p "public"))).foldl
            (buildStep renderPost md2html) (dir1, [])).2),
        createIndexFile renderIndex
          ((posts.filter (fun p => truthy (objLookup p "public"))).foldl
            (buildStep renderPost md2html) (dir1, [])).1
          (sortPosts (postLe dv)
            ((posts.filter (fun p => truthy (objLookup p "public"))).foldl
              (buildStep renderPost md2html) (dir1, [])).2)) := by
  unfold buildCore
  rw [h]

lemma postLe_total (dv : Option JValue → Int) :
    ∀ a b, postLe dv a b = false → postLe dv b a = true := by
  intro a b h
  have h2 : ¬ (dv (objLookup b "date") ≤ dv (objLookup a "date")) :=
    of_decide_eq_false h
  exact decide_eq_true_iff.mpr (le_of_not_le h2)

lemma truthy_filter_valid {posts : List JObject}
    (hvalid : ∀ p ∈ posts, objLookup p "public" = none ∨
      ∃ b, objLookup p "public" = some (.bool b)) :
    posts.filter (fun p => truthy (objLookup p "public")) =
      posts.filter (fun p => decide (objLookup p "public" = some (.bool true))) := by
  apply List.filter_congr
  intro p hp
  rcases hvalid p hp with h | ⟨b, h⟩
  · rw [h]
    simp [truthy]
  · rw [h]
    cases b <;> simp [truthy]

/-- C8: the directory scan returns exactly the names of the regular-file
entries (subdirectories and other non-file entries are omitted) whose
name ends in the Markdown extension; the match is on the lower-cased
name, and the returned order simply follows the file-system-given entry
order, so no order is guaranteed. -/
theorem getFiles_lists_md_files (dirents : List DirEnt) (x : String) :
    x ∈ getFiles dirents ".md" ↔
      ∃ e ∈ dirents, e.isFile = true ∧ e.name = x ∧
        strEndsWith (strToLower x) ".md" = true := by
  have hext : (".md" : String).data.isEmpty = false := rfl
  rw [mem_getFiles hext]
  constructor
  · rintro ⟨e, he, hf, hm, hn⟩
    exact ⟨e, he, hf, hn, hn ▸ hm⟩
  · rintro ⟨e, he, hf, hn, hm⟩
    refine ⟨e, he, hf, ?_, hn⟩
    rw [hn]
    exact hm

/-- C9: the Markdown-extension match of the directory scan is
case-insensitive: a lone file is listed exactly when its lower-cased name
ends in ".md", so for example "POST.MD" and "post.Md" are both listed. -/
theorem getFiles_case_insensitive (name content : String) :
    getFiles [⟨name, true, content⟩] ".md" =
      if strEndsWith (strToLower name) ".md" = true then [name] else [] := by
  have hext : (".md" : String).data.isEmpty = false := rfl
  by_cases h : strEndsWith (strToLower name) ".md" = true
  · rw [if_pos h]
    simp [getFiles, hext, h]
  · rw [if_neg h]
    have hf2 : strEndsWith (strToLower name) ".md" = false := by
      cases hv : strEndsWith (strToLower name) ".md"
      · rfl
      · exact absurd hv h
    simp [getFiles, hext, hf2]

/-- C10: whatever the front-matter attributes contain, the parsed post's
slug is the file's base name and its body is the file's body text: the
later `body` and `slug` assignments of the returned object literal
override any attribute keys of the same name. -/
theorem parsePost_slug_body_override (fm : FrontMatter) (fileName fileData : String)
    (attrs : JObject) (body : String) (h : fm fileData = .ok (attrs, body)) :
    ∃ p, parsePost fm fileName fileData = Except.ok p ∧
      objLookup p "slug" = some (.str (basename fileName ".md")) ∧
      objLookup p "body" = some (.str body) :=
  parsePost_slug_body h

/-- Witness for C10 at a front matter that tries to smuggle in `slug` and
`body` attributes: both are overridden. -/
theorem parsePost_slug_body_override_witness :
    ∃ p, parsePost (fun s => .ok ([("slug", JValue.str "EVIL"), ("body", JValue.str "EVIL")], s))
        "a.md" "realbody" = Except.ok p ∧
      objLookup p "slug" = some (.str (basename "a.md" ".md")) ∧
      objLookup p "body" = some (.str "realbody") :=
  parsePost_slug_body_override (fun s => .ok ([("slug", JValue.str "EVIL"), ("body", JValue.str "EVIL")], s))
    "a.md" "realbody" [("slug", JValue.str "EVIL"), ("body", JValue.str "EVIL")] "realbody" rfl

/-- C2 fails at the file named ".md" (the base name X is empty): Node's
basename does not strip an extension that is the whole name, so the slug
is ".md" rather than "" and the output file is ".md.html" rather than
".html". -/
theorem slug_round_trip_cex :
    ∃ p, parsePost (fun s => Except.ok (([] : JObject), s)) ("" ++ ".md") "hello" = Except.ok p ∧
      slugOf p = ".md" ∧ slugOf p ≠ "" ∧
      createPostFileName p = ".md.html" ∧ createPostFileName p ≠ "" ++ ".html" :=
  ⟨[("body", JValue.str "hello"), ("slug", JValue.str ".md")], rfl, rfl, by decide, rfl, by decide⟩

/-- C2 (amended): for every source file named X.md with X nonempty, the
parsed post's slug is X and createPostFile writes its output under
X.html. -/
theorem slug_round_trip_amended (fm : FrontMatter) (X fileData : String) (attrs : JObject)
    (body : String) (hX : X ≠ "") (h : fm fileData = .ok (attrs, body)) :
    ∃ p, parsePost fm (X ++ ".md") fileData = Except.ok p ∧
      slugOf p = X ∧ createPostFileName p = X ++ ".html" := by
  have hX2 : X.data ≠ [] := by
    intro hd
    apply hX
    obtain ⟨xs⟩ := X
    simp only at hd
    rw [hd]
  obtain ⟨p, hp, hslug, hbody⟩ := @parsePost_slug_body fm (X ++ ".md") fileData attrs body h
  have hs : slugOf p = X := by
    unfold slugOf
    rw [hslug, basename_append_md X hX2]
  refine ⟨p, hp, hs, ?_⟩
  rw [createPostFileName_eq, hs]

/-- Witness for the amended C2 at the repository's own source file name
"hello-world.md". -/
theorem slug_round_trip_witness :
    ∃ p, parsePost (fun s => Except.ok (([] : JObject), s)) ("hello-world" ++ ".md") "b" =
        Except.ok p ∧
      slugOf p = "hello-world" ∧ createPostFileName p = "hello-world" ++ ".html" :=
  slug_round_trip_amended (fun s => Except.ok (([] : JObject), s)) "hello-world" "b" [] "b"
    (by decide) rfl

/-- C7: the src/index.js variant implements reset policy (b): build
deletes only the HTML files of the destination directory, and every other
file that was present before the run is still present, with the same
contents, after the run (both on the failing and on the succeeding
path). -/
theorem non_html_preserved (fm : FrontMatter) (md2html : String → String)
    (renderPost : JObject → String) (renderIndex : List JObject → String)
    (dv : Option JValue → Int) (postsDir publicDir : List DirEnt) (e : DirEnt)
    (he : e ∈ publicDir) (_hf : e.isFile = true)
    (hnh : strEndsWith (strToLower e.name) ".html" = false) :
    e ∈ (build fm md2html renderPost renderIndex dv postsDir publicDir).2 := by
  have hext : (".html" : String).data.isEmpty = false := rfl
  have h1 : e ∈ removeFiles publicDir ".html" := mem_removeFiles_of_not_ext hext he hnh
  show e ∈ (buildCore fm md2html renderPost renderIndex dv postsDir
    (removeFiles publicDir ".html")).2
  cases hgp : getPosts fm postsDir with
  | error er =>
    rw [buildCore_error hgp]
    exact h1
  | ok posts =>
    rw [buildCore_ok hgp]
    apply writeFile_mem_of_ne
    · exact foldl_buildStep_fst renderPost md2html (fun dir => e ∈ dir) _ _ _
        (fun d2 p _ hd2 =>
          writeFile_mem_of_ne hd2 (ne_of_htmlish (htmlish_createPostFileName p) hnh).symm)
        h1
    · exact (ne_of_htmlish htmlish_index hnh).symm

/-- Witness for C7: a text file in the destination directory survives a
build run unchanged. -/
theorem non_html_preserved_witness :
    (⟨"keep.txt", true, "z"⟩ : DirEnt) ∈
      (build (fun s => Except.ok (([] : JObject), s)) id (fun _ => "") (fun _ => "")
        (fun _ => 0) [⟨"a.md", true, "b"⟩] [⟨"keep.txt", true, "z"⟩]).2 :=
  non_html_preserved (fun s => Except.ok (([] : JObject), s)) id (fun _ => "") (fun _ => "")
    (fun _ => 0) [⟨"a.md", true, "b"⟩] [⟨"keep.txt", true, "z"⟩] ⟨"keep.txt", true, "z"⟩
    (by decide) rfl (by decide)

/-- C4 fails as stated: with a malformed source file the build does fail,
but the destination directory is not unchanged, because build deletes the
previously generated HTML files before any parsing happens.  Here the
pre-existing "old.html" is gone after the failed run. -/
theorem malformed_no_partial_write_cex :
    (build (fun _ => Except.error "malformed front matter") id (fun _ => "") (fun _ => "")
        (fun _ => 0) [⟨"bad.md", true, "x"⟩] [⟨"old.html", true, "y"⟩]).1 =
      Except.error "malformed front matter" ∧
    (build (fun _ => Except.error "malformed front matter") id (fun _ => "") (fun _ => "")
        (fun _ => 0) [⟨"bad.md", true, "x"⟩] [⟨"old.html", true, "y"⟩]).2 ≠
      [⟨"old.html", true, "y"⟩] :=
  ⟨rfl, by decide⟩

/-- C4 (amended): with a malformed metadata block among the source files
the build fails and writes no output file, but the destination directory
is not left unchanged: it is exactly the initial directory with its
previously generated HTML files already deleted (so non-HTML contents are
preserved and nothing else is touched). -/
theorem malformed_build_amended (fm : FrontMatter) (md2html : String → String)
    (renderPost : JObject → String) (renderIndex : List JObject → String)
    (dv : Option JValue → Int) (postsDir publicDir : List DirEnt) (bad : DirEnt)
    (hnd : (postsDir.map DirEnt.name).Nodup) (hbad : bad ∈ postsDir)
    (hf : bad.isFile = true) (hmd : strEndsWith (strToLower bad.name) ".md" = true)
    (herr : ∃ e, fm bad.content = .error e) :
    (∃ e2, (build fm md2html renderPost renderIndex dv postsDir publicDir).1 =
      Except.error e2) ∧
    (build fm md2html renderPost renderIndex dv postsDir publicDir).2 =
      removeFiles publicDir ".html" := by
  obtain ⟨e2, hgp⟩ := getPosts_error_of_bad hnd hbad hf hmd herr
  have hb : build fm md2html renderPost renderIndex dv postsDir publicDir =
      (Except.error e2, removeFiles publicDir ".html") := buildCore_error hgp
  rw [hb]
  exact ⟨⟨e2, rfl⟩, rfl⟩

/-- Witness for the amended C4: one malformed file, one stale HTML file
and one text file in the destination; the run fails and the destination
holds the text file only. -/
theorem malformed_build_amended_witness :
    (∃ e2, (build (fun _ => Except.error "bad YAML") id (fun _ => "") (fun _ => "")
        (fun _ => 0) [⟨"bad.md", true, "x"⟩]
        [⟨"old.html", true, "y"⟩, ⟨"keep.txt", true, "z"⟩]).1 = Except.error e2) ∧
    (build (fun _ => Except.error "bad YAML") id (fun _ => "") (fun _ => "")
        (fun _ => 0) [⟨"bad.md", true, "x"⟩]
        [⟨"old.html", true, "y"⟩, ⟨"keep.txt", true, "z"⟩]).2 =
      removeFiles [⟨"old.html", true, "y"⟩, ⟨"keep.txt", true, "z"⟩] ".html" :=
  malformed_build_amended (fun _ => Except.error "bad YAML") id (fun _ => "") (fun _ => "")
    (fun _ => 0) [⟨"bad.md", true, "x"⟩] [⟨"old.html", true, "y"⟩, ⟨"keep.txt", true, "z"⟩]
    ⟨"bad.md", true, "x"⟩ (by decide) (by decide) rfl (by decide) ⟨"bad YAML", rfl⟩

/-- C5 fails as stated: on a failing run the error is printed to standard
error, but the exit code is 0, not nonzero, because the final catch
handler handles the rejection and the process then exits normally. -/
theorem exit_code_cex :
    entryPoint (fun _ => Except.error "boom") id (fun _ => "") (fun _ => "") (fun _ => 0)
        [⟨"bad.md", true, "x"⟩] [] = (Channel.stderr, "boom", 0) ∧
    (entryPoint (fun _ => Except.error "boom") id (fun _ => "") (fun _ => "") (fun _ => 0)
        [⟨"bad.md", true, "x"⟩] []).2.2 = 0 :=
  ⟨rfl, rfl⟩

/-- C5 (amended): any build failure reaches the final catch handler and is
printed to standard error, and a success prints the generated-post count
to standard output; the process exit code is 0 on both outcomes, because
the catch handler swallows the rejection. -/
theorem entry_point_amended (fm : FrontMatter) (md2html : String → String)
    (renderPost : JObject → String) (renderIndex : List JObject → String)
    (dv : Option JValue → Int) (postsDir publicDir : List DirEnt) :
    (∀ e, (build fm md2html renderPost renderIndex dv postsDir publicDir).1 = Except.error e →
      entryPoint fm md2html renderPost renderIndex dv postsDir publicDir =
        (Channel.stderr, e, 0)) ∧
    (∀ l, (build fm md2html renderPost renderIndex dv postsDir publicDir).1 = Except.ok l →
      entryPoint fm md2html renderPost renderIndex dv postsDir publicDir =
        (Channel.stdout, successMessage l.length, 0)) := by
  constructor
  · intro e he
    unfold entryPoint
    rw [he]
  · intro l hl
    unfold entryPoint
    rw [hl]

/-- Witness for the amended C5 on a failing run: the error text goes to
standard error and the exit code is 0. -/
theorem entry_point_amended_witness :
    entryPoint (fun _ => Except.error "oops") id (fun _ => "") (fun _ => "") (fun _ => 0)
      [⟨"bad.md", true, "x"⟩] [] = (Channel.stderr, "oops", 0) :=
  (entry_point_amended (fun _ => Except.error "oops") id (fun _ => "") (fun _ => "")
    (fun _ => 0) [⟨"bad.md", true, "x"⟩] []).1 "oops" rfl

lemma createIndexFile_eq (renderIndex : List JObject → String) (dir : List DirEnt)
    (posts : List JObject) :
    createIndexFile renderIndex dir posts = writeFile dir "index.html" (renderIndex posts) := rfl

lemma createPostFile_fst (renderPost : JObject → String) (md2html : String → String)
    (dir : List DirEnt) (post : JObject) :
    (createPostFile renderPost md2html dir post).1 =
      writeFile dir (createPostFileName post)
        (renderPost (objInsert post "body" (.str (md2html (bodyOf post))))) := rfl

/-- C3: build settles with exactly the list it passes to createIndexFile:
the public posts sorted by the declared date field, newest first under
the date valuation, so along the list every adjacent pair is monotonic in
one fixed direction. -/
theorem index_sorted_by_date (fm : FrontMatter) (md2html : String → String)
    (renderPost : JObject → String) (renderIndex : List JObject → String)
    (dv : Option JValue → Int) (postsDir publicDir : List DirEnt) (posts : List JObject)
    (hposts : getPosts fm postsDir = .ok posts) :
    ∃ l, (build fm md2html renderPost renderIndex dv postsDir publicDir).1 = Except.ok l ∧
      List.Chain' (fun a b => dv (objLookup b "date") ≤ dv (objLookup a "date")) l ∧
      l.Perm (posts.filter (fun p => truthy (objLookup p "public"))) := by
  have hbuild : build fm md2html renderPost renderIndex dv postsDir publicDir = _ :=
    buildCore_ok hposts
  refine ⟨_, by rw [hbuild], ?_, ?_⟩
  · have hch := sortPosts_chain (postLe dv) (postLe_total dv)
      ((posts.filter (fun p => truthy (objLookup p "public"))).foldl
        (buildStep renderPost md2html) (removeFiles publicDir ".html", [])).2
    exact List.Chain'.imp (fun a b hab => of_decide_eq_true hab) hch
  · have hsnd : ((posts.filter (fun p => truthy (objLookup p "public"))).foldl
        (buildStep renderPost md2html) (removeFiles publicDir ".html", [])).2 =
        posts.filter (fun p => truthy (objLookup p "public")) := by
      rw [foldl_buildStep_snd]
      simp
    have hperm := sortPosts_perm (postLe dv)
      ((posts.filter (fun p => truthy (objLookup p "public"))).foldl
        (buildStep renderPost md2html) (removeFiles publicDir ".html", [])).2
    nth_rewrite 2 [hsnd] at hperm
    exact hperm

/-- Witness for C3: two public posts with dates valued 1 and 5 come out
newest first. -/
theorem index_sorted_by_date_witness :
    ∃ l, (build
        (fun s => Except.ok ([("public", JValue.bool true), ("date", JValue.str s)], s))
        id (fun _ => "P") (fun _ => "I")
        (fun d => match d with | some (.str "B") => 5 | _ => 1)
        [⟨"a.md", true, "A"⟩, ⟨"b.md", true, "B"⟩] []).1 = Except.ok l ∧
      List.Chain' (fun a b =>
        (fun d => match d with | some (JValue.str "B") => (5 : Int) | _ => 1)
            (objLookup b "date") ≤
          (fun d => match d with | some (JValue.str "B") => (5 : Int) | _ => 1)
            (objLookup a "date")) l ∧
      l.Perm ([[("public", JValue.bool true), ("date", JValue.str "A"),
          ("body", JValue.str "A"), ("slug", JValue.str "a")],
        [("public", JValue.bool true), ("date", JValue.str "B"),
          ("body", JValue.str "B"), ("slug", JValue.str "b")]].filter
        (fun p => truthy (objLookup p "public"))) :=
  index_sorted_by_date
    (fun s => Except.ok ([("public", JValue.bool true), ("date", JValue.str s)], s))
    id (fun _ => "P") (fun _ => "I")
    (fun d => match d with | some (.str "B") => 5 | _ => 1)
    [⟨"a.md", true, "A"⟩, ⟨"b.md", true, "B"⟩] []
    [[("public", JValue.bool true), ("date", JValue.str "A"),
        ("body", JValue.str "A"), ("slug", JValue.str "a")],
      [("public", JValue.bool true), ("date", JValue.str "B"),
        ("body", JValue.str "B"), ("slug", JValue.str "b")]]
    rfl

/-- C1: on valid input (every public flag is absent or boolean), the list
build settles with has exactly as many posts as there are posts with
public = true; every such post has its HTML file in the final destination
directory, and a post with no public flag or public = false leaves no
file of its name (provided its output name collides neither with
index.html nor with a public post's output name). -/
theorem build_public_posts (fm : FrontMatter) (md2html : String → String)
    (renderPost : JObject → String) (renderIndex : List JObject → String)
    (dv : Option JValue → Int) (postsDir publicDir : List DirEnt) (posts : List JObject)
    (hposts : getPosts fm postsDir = .ok posts)
    (hvalid : ∀ p ∈ posts, objLookup p "public" = none ∨
      ∃ b, objLookup p "public" = some (.bool b)) :
    ∃ l, (build fm md2html renderPost renderIndex dv postsDir publicDir).1 = Except.ok l ∧
      l.length = (posts.filter
        (fun p => decide (objLookup p "public" = some (.bool true)))).length ∧
      (∀ p ∈ posts, truthy (objLookup p "public") = true →
        ∃ e ∈ (build fm md2html renderPost renderIndex dv postsDir publicDir).2,
          e.isFile = true ∧ e.name = createPostFileName p) ∧
      (∀ p ∈ posts,
        (objLookup p "public" = none ∨ objLookup p "public" = some (.bool false)) →
        createPostFileName p ≠ "index.html" →
        (∀ q ∈ posts, truthy (objLookup q "public") = true →
          createPostFileName q ≠ createPostFileName p) →
        ¬ ∃ e ∈ (build fm md2html renderPost renderIndex dv postsDir publicDir).2,
          e.isFile = true ∧ e.name = createPostFileName p) := by
  have hext : (".html" : String).data.isEmpty = false := rfl
  have hbuild : build fm md2html renderPost renderIndex dv postsDir publicDir = _ :=
    buildCore_ok hposts
  rw [hbuild]
  have hsnd : ((posts.filter (fun p => truthy (objLookup p "public"))).foldl
      (buildStep renderPost md2html) (removeFiles publicDir ".html", [])).2 =
      posts.filter (fun p => truthy (objLookup p "public")) := by
    rw [foldl_buildStep_snd]
    simp
  refine ⟨_, rfl, ?_, ?_, ?_⟩
  · rw [hsnd, (sortPosts_perm (postLe dv) _).length_eq, truthy_filter_valid hvalid]
  · intro p hp htr
    rw [createIndexFile_eq]
    apply writeFile_file_preserved
    exact foldl_buildStep_creates renderPost md2html _ _ _ p (List.mem_filter.mpr ⟨hp, htr⟩)
  · intro p hp hpub hidx hq
    have hstart : ¬ ∃ e ∈ removeFiles publicDir ".html",
        e.isFile = true ∧ e.name = createPostFileName p := by
      rintro ⟨e, he, hef, hen⟩
      have hnm := removeFiles_no_match hext he hef
      rw [hen, htmlish_createPostFileName p] at hnm
      exact Bool.noConfusion hnm
    have hfold := foldl_buildStep_fst renderPost md2html
      (fun d => ¬ ∃ e ∈ d, e.isFile = true ∧ e.name = createPostFileName p)
      (posts.filter (fun p => truthy (objLookup p "public")))
      (removeFiles publicDir ".html") []
      (fun d2 q2 hq2 hd2 => by
        rw [createPostFile_fst]
        have hq2m := List.mem_filter.mp hq2
        exact writeFile_no_file hd2 (hq q2 hq2m.1 hq2m.2).symm)
      hstart
    rw [createIndexFile_eq]
    exact writeFile_no_file hfold hidx

/-- Witness for C1: one public and one non-public post; the settled list
has length 1, "a.html" exists and "b.html" does not. -/
theorem build_public_posts_witness :
    ∃ l, (build
        (fun s => if s = "A" then Except.ok ([("public", JValue.bool true)], s)
          else Except.ok ([("public", JValue.bool false)], s))
        id (fun _ => "P") (fun _ => "I") (fun _ => 0)
        [⟨"a.md", true, "A"⟩, ⟨"b.md", true, "B"⟩] []).1 = Except.ok l ∧
      l.length = ([[("public", JValue.bool true), ("body", JValue.str "A"),
          ("slug", JValue.str "a")],
        [("public", JValue.bool false), ("body", JValue.str "B"),
          ("slug", JValue.str "b")]].filter
        (fun p => decide (objLookup p "public" = some (.bool true)))).length ∧
      (∀ p ∈ [[("public", JValue.bool true), ("body", JValue.str "A"),
          ("slug", JValue.str "a")],
        [("public", JValue.bool false), ("body", JValue.str "B"),
          ("slug", JValue.str "b")]], truthy (objLookup p "public") = true →
        ∃ e ∈ (build
            (fun s => if s = "A" then Except.ok ([("public", JValue.bool true)], s)
              else Except.ok ([("public", JValue.bool false)], s))
            id (fun _ => "P") (fun _ => "I") (fun _ => 0)
            [⟨"a.md", true, "A"⟩, ⟨"b.md", true, "B"⟩] []).2,
          e.isFile = true ∧ e.name = createPostFileName p) ∧
      (∀ p ∈ [[("public", JValue.bool true), ("body", JValue.str "A"),
          ("slug", JValue.str "a")],
        [("public", JValue.bool false), ("body", JValue.str "B"),
          ("slug", JValue.str "b")]],
        (objLookup p "public" = none ∨ objLookup p "public" = some (.bool false)) →
        createPostFileName p ≠ "index.html" →
        (∀ q ∈ [[("public", JValue.bool true), ("body", JValue.str "A"),
            ("slug", JValue.str "a")],
          [("public", JValue.bool false), ("body", JValue.str "B"),
            ("slug", JValue.str "b")]], truthy (objLookup q "public") = true →
          createPostFileName q ≠ createPostFileName p) →
        ¬ ∃ e ∈ (build
            (fun s => if s = "A" then Except.ok ([("public", JValue.bool true)], s)
              else Except.ok ([("public", JValue.bool false)], s))
            id (fun _ => "P") (fun _ => "I") (fun _ => 0)
            [⟨"a.md", true, "A"⟩, ⟨"b.md", true, "B"⟩] []).2,
          e.isFile = true ∧ e.name = createPostFileName p) :=
  build_public_posts
    (fun s => if s = "A" then Except.ok ([("public", JValue.bool true)], s)
      else Except.ok ([("public", JValue.bool false)], s))
    id (fun _ => "P") (fun _ => "I") (fun _ => 0)
    [⟨"a.md", true, "A"⟩, ⟨"b.md", true, "B"⟩] []
    [[("public", JValue.bool true), ("body", JValue.str "A"), ("slug", JValue.str "a")],
      [("public", JValue.bool false), ("body", JValue.str "B"), ("slug", JValue.str "b")]]
    rfl (by decide)

/-- C6: running build twice on the same source directory gives identical
results: the second run, started on the destination directory the first
run left behind, produces the same settled value and the same final
destination directory, byte for byte.  The hypothesis rules out
destination subdirectories with ".html"-suffixed names, which `fs.unlink`
could not remove and `fs.writeFile` could not overwrite. -/
theorem build_idempotent (fm : FrontMatter) (md2html : String → String)
    (renderPost : JObject → String) (renderIndex : List JObject → String)
    (dv : Option JValue → Int) (postsDir publicDir : List DirEnt)
    (hdirs : ∀ e ∈ publicDir, e.isFile = false →
      strEndsWith (strToLower e.name) ".html" = false) :
    build fm md2html renderPost renderIndex dv postsDir
      ((build fm md2html renderPost renderIndex dv postsDir publicDir).2) =
    build fm md2html renderPost renderIndex dv postsDir publicDir := by
  have hext : (".html" : String).data.isEmpty = false := rfl
  have hPbase :
      removeFiles (removeFiles publicDir ".html") ".html" = removeFiles publicDir ".html" ∧
      ∀ e ∈ removeFiles publicDir ".html", e.isFile = false →
        strEndsWith (strToLower e.name) ".html" = false :=
    ⟨removeFiles_idem hext, fun e he hef => hdirs e (removeFiles_subset he) hef⟩
  have hstep : ∀ (d2 : List DirEnt) (n c : String),
      strEndsWith (strToLower n) ".html" = true →
      (removeFiles d2 ".html" = removeFiles publicDir ".html" ∧
        ∀ e ∈ d2, e.isFile = false → strEndsWith (strToLower e.name) ".html" = false) →
      (removeFiles (writeFile d2 n c) ".html" = removeFiles publicDir ".html" ∧
        ∀ e ∈ writeFile d2 n c, e.isFile = false →
          strEndsWith (strToLower e.name) ".html" = false) := by
    intro d2 n c hn hP
    obtain ⟨h1, h2⟩ := hP
    constructor
    · rw [removeFiles_writeFile hn ?hfile]
      · exact h1
      · intro e he hen
        cases hef : e.isFile
        · exfalso
          have hbad := h2 e he hef
          rw [hen, hn] at hbad
          exact Bool.noConfusion hbad
        · rfl
    · intro e he hef
      exact h2 e (writeFile_nonFile_mem he hef) hef
  have hreset :
      removeFiles ((build fm md2html renderPost renderIndex dv postsDir publicDir).2) ".html" =
        removeFiles publicDir ".html" := by
    cases hgp : getPosts fm postsDir with
    | error er =>
      have hb : build fm md2html renderPost renderIndex dv postsDir publicDir =
          (Except.error er, removeFiles publicDir ".html") := buildCore_error hgp
      rw [hb]
      exact removeFiles_idem hext
    | ok posts =>
      have hb : build fm md2html renderPost renderIndex dv postsDir publicDir = _ :=
        buildCore_ok hgp
      have hsnd2 : (build fm md2html renderPost renderIndex dv postsDir publicDir).2 =
          createIndexFile renderIndex
            ((posts.filter (fun p => truthy (objLookup p "public"))).foldl
              (buildStep renderPost md2html) (removeFiles publicDir ".html", [])).1
            (sortPosts (postLe dv)
              ((posts.filter (fun p => truthy (objLookup p "public"))).foldl
                (buildStep renderPost md2html) (removeFiles publicDir ".html", [])).2) := by
        rw [hb]
      rw [hsnd2, createIndexFile_eq]
      have hP := foldl_buildStep_fst renderPost md2html
        (fun d => removeFiles d ".html" = removeFiles publicDir ".html" ∧
          ∀ e ∈ d, e.isFile = false → strEndsWith (strToLower e.name) ".html" = false)
        (posts.filter (fun p => truthy (objLookup p "public")))
        (removeFiles publicDir ".html") []
        (fun d2 q _ hd2 => by
          rw [createPostFile_fst]
          exact hstep d2 (createPostFileName q) _ (htmlish_createPostFileName q) hd2)
        hPbase
      exact (hstep _ "index.html" _ htmlish_index hP).1
  show buildCore fm md2html renderPost renderIndex dv postsDir
      (removeFiles ((build fm md2html renderPost renderIndex dv postsDir publicDir).2)
        ".html") =
    buildCore fm md2html renderPost renderIndex dv postsDir (removeFiles publicDir ".html")
  rw [hreset]

/-- Witness for C6 on a destination holding a stale HTML file, a text file
and a subdirectory. -/
theorem build_idempotent_witness :
    build (fun s => Except.ok (([] : JObject), s)) id (fun _ => "P") (fun _ => "I")
      (fun _ => 0) [⟨"a.md", true, "b"⟩]
      ((build (fun s => Except.ok (([] : JObject), s)) id (fun _ => "P") (fun _ => "I")
        (fun _ => 0) [⟨"a.md", true, "b"⟩]
        [⟨"old.html", true, "y"⟩, ⟨"keep.txt", true, "z"⟩, ⟨"assets", false, ""⟩]).2) =
    build (fun s => Except.ok (([] : JObject), s)) id (fun _ => "P") (fun _ => "I")
      (fun _ => 0) [⟨"a.md", true, "b"⟩]
      [⟨"old.html", true, "y"⟩, ⟨"keep.txt", true, "z"⟩, ⟨"assets", false, ""⟩] :=
  build_idempotent (fun s => Except.ok (([] : JObject), s)) id (fun _ => "P") (fun _ => "I")
    (fun _ => 0) [⟨"a.md", true, "b"⟩]
    [⟨"old.html", true, "y"⟩, ⟨"keep.txt", true, "z"⟩, ⟨"assets", false, ""⟩] (by decide)

end SSG
